import Mathlib

/-!
Verification of the `TapeProcessor` audio DSP unit from
`src/audio/wasm-dsp/src/lib.rs` of the 12oh12 repository.

The processor holds a single `f32` field `filter_state` and processes a
mutable buffer of `f32` samples in place.  The shallow embedding below
models `f32` values by real numbers (exact arithmetic; IEEE rounding is
abstracted away) and models the in-place mutation by explicit state
passing: `process_sample` returns the updated processor together with
the output sample, and `process` returns the updated processor together
with the output buffer, element for element in ascending index order.

A second embedding, over an extended value domain `FloatVal` with `nan`
and signed infinities, captures the IEEE special-value propagation rules
needed for the NaN-poisoning claim.
-/

namespace WasmDsp

/-- The sole entity of the program: a processor owning one persistent
scalar, `filter_state`, the running output of the one-pole lowpass
filter (`struct TapeProcessor { filter_state: f32 }`). -/
structure TapeProcessor where
  filter_state : ℝ

/-- `TapeProcessor::new()`: a fresh instance with `filter_state = 0.0`. -/
def TapeProcessor.new : TapeProcessor :=
  { filter_state := 0.0 }

/-- `TapeProcessor::process_sample(input)`: the single-sample tape chain.
Mirrors the source line for line: `driven = input * 1.5`,
`saturated = driven.tanh()`, `a = 0.19`,
`filter_state = a * saturated + (1.0 - a) * filter_state`,
`limited = filter_state * 0.9`, return `limited.tanh()`.
The mutated `self` is returned explicitly as the first component. -/
noncomputable def TapeProcessor.process_sample (p : TapeProcessor) (input : ℝ) :
    TapeProcessor × ℝ :=
  let driven := input * 1.5
  let saturated := Real.tanh driven
  let a : ℝ := 0.19
  let new_state := a * saturated + (1.0 - a) * p.filter_state
  let limited := new_state * 0.9
  ({ filter_state := new_state }, Real.tanh limited)

/-- `TapeProcessor::process(data)`: for each sample of the buffer in
ascending index order, replace it by `process_sample` of it, threading
the mutated `self` through.  The in-place update of the buffer is
modelled by returning the output buffer alongside the final state. -/
noncomputable def TapeProcessor.process : TapeProcessor → List ℝ → TapeProcessor × List ℝ
  | p, [] => (p, [])
  | p, x :: xs =>
    (((p.process_sample x).1.process xs).1,
      (p.process_sample x).2 :: ((p.process_sample x).1.process xs).2)

/-- A raw pointer value, as returned by `get_buffer_ptr`: either the
null pointer or some address. -/
inductive Ptr where
  | null : Ptr
  | addr : Nat → Ptr
deriving DecidableEq

/-- `TapeProcessor::get_buffer_ptr(&self)`: the body is
`std::ptr::null()`.  It takes `self` by shared reference, so the state
is returned unchanged alongside the pointer. -/
def TapeProcessor.get_buffer_ptr (p : TapeProcessor) : TapeProcessor × Ptr :=
  (p, Ptr.null)

/-! ### Basic unfolding facts for the single-sample transform -/

lemma process_sample_state (p : TapeProcessor) (x : ℝ) :
    (p.process_sample x).1.filter_state
      = 0.19 * Real.tanh (x * 1.5) + (1 - 0.19) * p.filter_state := by
  simp [TapeProcessor.process_sample]
  norm_num

lemma process_sample_out (p : TapeProcessor) (x : ℝ) :
    (p.process_sample x).2
      = Real.tanh ((0.19 * Real.tanh (x * 1.5) + (1 - 0.19) * p.filter_state) * 0.9) := by
  simp [TapeProcessor.process_sample]
  norm_num

/-! ### Range of the real hyperbolic tangent -/

lemma tanh_lt_one' (x : ℝ) : Real.tanh x < 1 := by
  rw [Real.tanh_eq_sinh_div_cosh]
  exact (div_lt_one (Real.cosh_pos x)).2 (Real.sinh_lt_cosh x)

lemma neg_one_lt_tanh' (x : ℝ) : -1 < Real.tanh x := by
  have h := tanh_lt_one' (-x)
  rw [Real.tanh_neg] at h
  linarith

lemma tanh_ne_zero' {x : ℝ} (hx : x ≠ 0) : Real.tanh x ≠ 0 := by
  rw [Real.tanh_eq_sinh_div_cosh]
  exact div_ne_zero (Real.sinh_ne_zero.2 hx) (Real.cosh_pos x).ne'

/-! ### Block processing versus per-sample folding -/

lemma process_foldl (b : List ℝ) (p : TapeProcessor) (ys : List ℝ) :
    b.foldl (fun acc x => ((acc.1.process_sample x).1, acc.2 ++ [(acc.1.process_sample x).2]))
      (p, ys)
      = ((p.process b).1, ys ++ (p.process b).2) := by
  induction b generalizing p ys with
  | nil => simp [TapeProcessor.process]
  | cons x xs ih =>
    simp only [List.foldl_cons, TapeProcessor.process, ih]
    simp

/-- C1: processing the concatenation `b1 ++ b2` from any state produces
the same final state and the concatenated output sequences of processing
`b1` and then `b2`; moreover `process` on any buffer equals folding
`process_sample` over its elements in ascending index order with the
persisted state, so buffer boundaries never affect the output stream. -/
theorem process_append_split (p : TapeProcessor) (b1 b2 : List ℝ) :
    (p.process (b1 ++ b2)).1 = ((p.process b1).1.process b2).1 ∧
    (p.process (b1 ++ b2)).2 = (p.process b1).2 ++ ((p.process b1).1.process b2).2 ∧
    p.process (b1 ++ b2)
      = (b1 ++ b2).foldl
          (fun acc x => ((acc.1.process_sample x).1, acc.2 ++ [(acc.1.process_sample x).2]))
          (p, []) := by
  refine ⟨?_, ?_, ?_⟩
  · induction b1 generalizing p with
    | nil => simp [TapeProcessor.process]
    | cons x xs ih => simp [TapeProcessor.process, ih]
  · induction b1 generalizing p with
    | nil => simp [TapeProcessor.process]
    | cons x xs ih => simp [TapeProcessor.process, ih]
  · rw [process_foldl]
    simp

/-- C2: on input `x` with current state `s`, the single-sample transform
drives by `1.5`, saturates with `tanh`, updates the state to
`0.19 * tanh(x * 1.5) + (1 - 0.19) * s`, stores it as `filter_state`,
and outputs `tanh` of that new state times `0.9`. -/
theorem process_sample_spec (p : TapeProcessor) (x : ℝ) :
    (p.process_sample x).1.filter_state
        = 0.19 * Real.tanh (x * 1.5) + (1 - 0.19) * p.filter_state ∧
    (p.process_sample x).2
        = Real.tanh ((0.19 * Real.tanh (x * 1.5) + (1 - 0.19) * p.filter_state) * 0.9) :=
  ⟨process_sample_state p x, process_sample_out p x⟩

/-- C3: every output sample that `process` writes is `tanh` of
something, hence lies strictly inside `(-1, 1)`; this holds for every
state, so in particular for every reachable one. -/
theorem process_output_bounded (p : TapeProcessor) (data : List ℝ) (y : ℝ)
    (hy : y ∈ (p.process data).2) : -1 < y ∧ y < 1 := by
  induction data generalizing p with
  | nil => simp [TapeProcessor.process] at hy
  | cons x xs ih =>
    simp only [TapeProcessor.process, List.mem_cons] at hy
    rcases hy with hy | hy
    · subst hy
      rw [process_sample_out]
      exact ⟨neg_one_lt_tanh' _, tanh_lt_one' _⟩
    · exact ih _ hy

/-- Closed instance of C3: the one output sample produced from the zero
state on the buffer `[0]` lies strictly inside `(-1, 1)`. -/
theorem process_output_bounded_witness :
    -1 < Real.tanh ((0.19 * Real.tanh ((0 : ℝ) * 1.5) + (1 - 0.19) * 0) * 0.9) ∧
    Real.tanh ((0.19 * Real.tanh ((0 : ℝ) * 1.5) + (1 - 0.19) * 0) * 0.9) < 1 := by
  refine process_output_bounded (TapeProcessor.mk 0) [0] _ ?_
  rw [show ((TapeProcessor.mk 0).process [0]).2
        = [((TapeProcessor.mk 0).process_sample 0).2] from rfl,
      process_sample_out]
  simp

/-- C4: a fresh instance processing `[0.0]` yields exactly `[0.0]` and
keeps `filter_state = 0.0`; processing `[1.0]` next from that state
yields `tanh(0.19 * tanh(1.5) * 0.9)` within tolerance `1e-6` (here the
difference is exactly zero, as the embedding computes exactly). -/
theorem fresh_example :
    (TapeProcessor.new.process [0.0]).2 = [0.0] ∧
    (TapeProcessor.new.process [0.0]).1.filter_state = 0.0 ∧
    |((TapeProcessor.new.process [0.0]).1.process [1.0]).2.head!
        - Real.tanh (0.19 * Real.tanh 1.5 * 0.9)| < 1e-6 := by
  have hs : (TapeProcessor.new.process [0.0]).1.filter_state = 0.0 := by
    rw [show ((TapeProcessor.new.process [0.0])).1
          = (TapeProcessor.new.process_sample 0.0).1 from rfl,
        process_sample_state]
    norm_num [TapeProcessor.new, Real.tanh_zero]
  refine ⟨?_, hs, ?_⟩
  · rw [show ((TapeProcessor.new.process [0.0])).2
          = [(TapeProcessor.new.process_sample 0.0).2] from rfl,
        process_sample_out]
    norm_num [TapeProcessor.new, Real.tanh_zero]
  · rw [show (((TapeProcessor.new.process [0.0]).1.process [1.0])).2.head!
          = ((TapeProcessor.new.process [0.0]).1.process_sample 1.0).2 from rfl,
        process_sample_out, hs]
    have harg : (0.19 * Real.tanh ((1.0 : ℝ) * 1.5) + (1 - 0.19) * 0.0) * 0.9
        = 0.19 * Real.tanh 1.5 * 0.9 := by norm_num
    rw [harg]
    norm_num

/-- Zero input from the zero state is a fixed point of `process`. -/
lemma process_replicate_zero (n : ℕ) :
    (TapeProcessor.mk 0).process (List.replicate n 0)
      = (TapeProcessor.mk 0, List.replicate n 0) := by
  induction n with
  | zero => simp [TapeProcessor.process]
  | succ n ih =>
    have hstep : (TapeProcessor.mk 0).process_sample 0 = (TapeProcessor.mk 0, 0) := by
      have h1 : ((TapeProcessor.mk 0).process_sample 0).1.filter_state = 0 := by
        rw [process_sample_state]; simp
      have h2 : ((TapeProcessor.mk 0).process_sample 0).2 = 0 := by
        rw [process_sample_out]; simp
      refine Prod.ext ?_ h2
      cases hp : ((TapeProcessor.mk 0).process_sample 0).1 with
      | mk s => simpa [hp] using h1
    rw [List.replicate_succ]
    simp only [TapeProcessor.process, hstep, ih]

/-- C5: an all-zero buffer of any length, fed to a fresh instance,
comes back all zero and leaves `filter_state = 0.0`. -/
theorem process_zero_buffer (n : ℕ) :
    (TapeProcessor.new.process (List.replicate n 0)).1.filter_state = 0 ∧
    (TapeProcessor.new.process (List.replicate n 0)).2 = List.replicate n 0 := by
  have h : TapeProcessor.new = TapeProcessor.mk 0 := by norm_num [TapeProcessor.new]
  rw [h, process_replicate_zero]
  exact ⟨rfl, rfl⟩

/-! ### Zero-input decay of the filter state -/

lemma process_sample_zero_state (p : TapeProcessor) :
    (p.process_sample 0).1.filter_state = 0.81 * p.filter_state := by
  rw [process_sample_state]
  norm_num [Real.tanh_zero]

lemma state_replicate_zero (n : ℕ) (p : TapeProcessor) :
    (p.process (List.replicate n 0)).1.filter_state = 0.81 ^ n * p.filter_state := by
  induction n generalizing p with
  | zero => simp [TapeProcessor.process]
  | succ n ih =>
    rw [List.replicate_succ]
    simp only [TapeProcessor.process]
    rw [ih, process_sample_zero_state]
    ring

/-- C7: after a non-zero impulse into a fresh instance, the state is
non-zero, every zero-input step multiplies the state by
`1 - 0.19 = 0.81`, so after `n` trailing zeros the state is
`0.81 ^ n` times the post-impulse state, its absolute value strictly
decreases at every step, and the state tends to zero. -/
theorem impulse_decay (x0 : ℝ) (hx0 : x0 ≠ 0) :
    (TapeProcessor.new.process_sample x0).1.filter_state ≠ 0 ∧
    (∀ q : TapeProcessor, (q.process_sample 0).1.filter_state = 0.81 * q.filter_state) ∧
    (∀ n : ℕ,
      ((TapeProcessor.new.process_sample x0).1.process (List.replicate n 0)).1.filter_state
        = 0.81 ^ n * (TapeProcessor.new.process_sample x0).1.filter_state) ∧
    (∀ n : ℕ,
      |((TapeProcessor.new.process_sample x0).1.process
          (List.replicate (n + 1) 0)).1.filter_state|
        < |((TapeProcessor.new.process_sample x0).1.process
            (List.replicate n 0)).1.filter_state|) ∧
    Filter.Tendsto
      (fun n : ℕ =>
        ((TapeProcessor.new.process_sample x0).1.process
          (List.replicate n 0)).1.filter_state)
      Filter.atTop (nhds 0) := by
  have hs1 : (TapeProcessor.new.process_sample x0).1.filter_state
      = 0.19 * Real.tanh (x0 * 1.5) := by
    rw [process_sample_state]
    norm_num [TapeProcessor.new]
  have hs1ne : (TapeProcessor.new.process_sample x0).1.filter_state ≠ 0 := by
    rw [hs1]
    exact mul_ne_zero (by norm_num) (tanh_ne_zero' (mul_ne_zero hx0 (by norm_num)))
  refine ⟨hs1ne, process_sample_zero_state, fun n => state_replicate_zero n _, ?_, ?_⟩
  · intro n
    rw [state_replicate_zero, state_replicate_zero]
    have hb : (0 : ℝ) < 0.81 ^ n := pow_pos (by norm_num) n
    have hA : 0 < |(TapeProcessor.new.process_sample x0).1.filter_state| :=
      abs_pos.2 hs1ne
    calc |(0.81 : ℝ) ^ (n + 1) * (TapeProcessor.new.process_sample x0).1.filter_state|
        = 0.81 ^ (n + 1) * |(TapeProcessor.new.process_sample x0).1.filter_state| := by
          rw [abs_mul, abs_of_nonneg (show (0 : ℝ) ≤ 0.81 ^ (n + 1) by positivity)]
      _ < 0.81 ^ n * |(TapeProcessor.new.process_sample x0).1.filter_state| := by
          rw [pow_succ]
          nlinarith
      _ = |(0.81 : ℝ) ^ n * (TapeProcessor.new.process_sample x0).1.filter_state| := by
          rw [abs_mul, abs_of_nonneg (show (0 : ℝ) ≤ 0.81 ^ n by positivity)]
  · have hT : Filter.Tendsto
        (fun n : ℕ => (0.81 : ℝ) ^ n * (TapeProcessor.new.process_sample x0).1.filter_state)
        Filter.atTop (nhds 0) := by
      have h0 := (tendsto_pow_atTop_nhds_zero_of_lt_one
        (show (0 : ℝ) ≤ 0.81 by norm_num) (by norm_num)).mul_const
        ((TapeProcessor.new.process_sample x0).1.filter_state)
      simpa using h0
    exact hT.congr fun n => (state_replicate_zero n _).symm

/-- Closed instance of C7: the decay properties at the impulse `1.0`. -/
theorem impulse_decay_witness :
    (TapeProcessor.new.process_sample 1).1.filter_state ≠ 0 ∧
    (∀ q : TapeProcessor, (q.process_sample 0).1.filter_state = 0.81 * q.filter_state) ∧
    (∀ n : ℕ,
      ((TapeProcessor.new.process_sample 1).1.process (List.replicate n 0)).1.filter_state
        = 0.81 ^ n * (TapeProcessor.new.process_sample 1).1.filter_state) ∧
    (∀ n : ℕ,
      |((TapeProcessor.new.process_sample 1).1.process
          (List.replicate (n + 1) 0)).1.filter_state|
        < |((TapeProcessor.new.process_sample 1).1.process
            (List.replicate n 0)).1.filter_state|) ∧
    Filter.Tendsto
      (fun n : ℕ =>
        ((TapeProcessor.new.process_sample 1).1.process
          (List.replicate n 0)).1.filter_state)
      Filter.atTop (nhds 0) :=
  impulse_decay 1 (by norm_num)

/-- C8: `process` is deterministic — equal `filter_state` and equal
input buffers give identical output buffers and identical final
`filter_state`. -/
theorem process_deterministic (p q : TapeProcessor) (b c : List ℝ)
    (hpq : p.filter_state = q.filter_state) (hbc : b = c) :
    (p.process b).2 = (q.process c).2 ∧
    (p.process b).1.filter_state = (q.process c).1.filter_state := by
  subst hbc
  cases p with
  | mk s =>
    cases q with
    | mk t =>
      cases hpq
      exact ⟨rfl, rfl⟩

/-- Closed instance of C8 at the zero state and the empty buffer. -/
theorem process_deterministic_witness :
    ((TapeProcessor.mk 0).process []).2 = ((TapeProcessor.mk 0).process []).2 ∧
    ((TapeProcessor.mk 0).process []).1.filter_state
      = ((TapeProcessor.mk 0).process []).1.filter_state :=
  process_deterministic (TapeProcessor.mk 0) (TapeProcessor.mk 0) [] [] rfl rfl

/-- C9: `process` writes back a buffer of exactly the input's length —
it neither allocates nor resizes — and its whole effect is the returned
buffer contents and the returned `filter_state`. -/
theorem process_length (p : TapeProcessor) (data : List ℝ) :
    ((p.process data).2).length = data.length := by
  induction data generalizing p with
  | nil => simp [TapeProcessor.process]
  | cons x xs ih => simp [TapeProcessor.process, ih]

/-- C10: `get_buffer_ptr` always returns the null pointer and leaves
the instance unchanged; no buffer or memory is ever exposed. -/
theorem get_buffer_ptr_null (p : TapeProcessor) :
    p.get_buffer_ptr = (p, Ptr.null) := rfl

/-! ### Extended value domain with IEEE special values

For the NaN-propagation claim the real-valued embedding is inadequate,
so the same source algorithm is re-embedded over `FloatVal`, which adds
`nan` and the signed infinities to the finite values and gives the
arithmetic operations and `tanh` the standard IEEE special-value rules
(`tanh(NaN) = NaN`, `tanh(±∞) = ±1`, NaN absorbs every operation).
Finite-by-finite arithmetic stays exact; overflow to infinity is not
modelled, which is irrelevant to NaN poisoning. -/

inductive FloatVal where
  | fin : ℝ → FloatVal
  | nan : FloatVal
  | posInf : FloatVal
  | negInf : FloatVal

/-- IEEE multiplication on the extended domain. -/
noncomputable def FloatVal.mul : FloatVal → FloatVal → FloatVal
  | nan, _ => nan
  | _, nan => nan
  | fin x, fin y => fin (x * y)
  | posInf, fin y => if y = 0 then nan else if 0 < y then posInf else negInf
  | negInf, fin y => if y = 0 then nan else if 0 < y then negInf else posInf
  | fin x, posInf => if x = 0 then nan else if 0 < x then posInf else negInf
  | fin x, negInf => if x = 0 then nan else if 0 < x then negInf else posInf
  | posInf, posInf => posInf
  | posInf, negInf => negInf
  | negInf, posInf => negInf
  | negInf, negInf => posInf

/-- IEEE addition on the extended domain. -/
noncomputable def FloatVal.add : FloatVal → FloatVal → FloatVal
  | nan, _ => nan
  | _, nan => nan
  | fin x, fin y => fin (x + y)
  | posInf, negInf => nan
  | negInf, posInf => nan
  | posInf, _ => posInf
  | _, posInf => posInf
  | negInf, _ => negInf
  | _, negInf => negInf

/-- IEEE subtraction on the extended domain. -/
noncomputable def FloatVal.sub : FloatVal → FloatVal → FloatVal
  | nan, _ => nan
  | _, nan => nan
  | fin x, fin y => fin (x - y)
  | posInf, posInf => nan
  | negInf, negInf => nan
  | posInf, _ => posInf
  | negInf, _ => negInf
  | fin _, posInf => negInf
  | fin _, negInf => posInf

/-- IEEE `tanh` on the extended domain: `tanh(NaN) = NaN`,
`tanh(+∞) = 1`, `tanh(-∞) = -1`. -/
noncomputable def FloatVal.tanh : FloatVal → FloatVal
  | fin x => fin (Real.tanh x)
  | nan => nan
  | posInf => fin 1
  | negInf => fin (-1)

/-- The processor state over the extended value domain. -/
structure TapeProcessorF where
  filter_state : FloatVal

/-- `TapeProcessor::process_sample` transcribed over `FloatVal`,
operation for operation. -/
noncomputable def TapeProcessorF.process_sample (p : TapeProcessorF) (input : FloatVal) :
    TapeProcessorF × FloatVal :=
  let driven := input.mul (FloatVal.fin 1.5)
  let saturated := driven.tanh
  let a := FloatVal.fin 0.19
  let new_state := (a.mul saturated).add (((FloatVal.fin 1.0).sub a).mul p.filter_state)
  let limited := new_state.mul (FloatVal.fin 0.9)
  ({ filter_state := new_state }, limited.tanh)

/-- `TapeProcessor::process` transcribed over `FloatVal`. -/
noncomputable def TapeProcessorF.process : TapeProcessorF → List FloatVal → TapeProcessorF × List FloatVal
  | p, [] => (p, [])
  | p, x :: xs =>
    (((p.process_sample x).1.process xs).1,
      (p.process_sample x).2 :: ((p.process_sample x).1.process xs).2)

lemma FloatVal.mul_nan (v : FloatVal) : v.mul FloatVal.nan = FloatVal.nan := by
  cases v <;> rfl

lemma FloatVal.nan_mul (v : FloatVal) : FloatVal.nan.mul v = FloatVal.nan := by
  cases v <;> rfl

lemma FloatVal.add_nan (v : FloatVal) : v.add FloatVal.nan = FloatVal.nan := by
  cases v <;> rfl

lemma nan_step (p : TapeProcessorF) (x : FloatVal) (h : p.filter_state = FloatVal.nan) :
    (p.process_sample x).1.filter_state = FloatVal.nan ∧
    (p.process_sample x).2 = FloatVal.nan := by
  have hst : (p.process_sample x).1.filter_state = FloatVal.nan := by
    simp only [TapeProcessorF.process_sample, h, FloatVal.mul_nan, FloatVal.add_nan]
  refine ⟨hst, ?_⟩
  show ((((FloatVal.fin 0.19).mul (((x.mul (FloatVal.fin 1.5))).tanh)).add
      (((FloatVal.fin 1.0).sub (FloatVal.fin 0.19)).mul p.filter_state)).mul
      (FloatVal.fin 0.9)).tanh = FloatVal.nan
  rw [h, FloatVal.mul_nan, FloatVal.add_nan, FloatVal.nan_mul]
  rfl

lemma nan_run (p : TapeProcessorF) (data : List FloatVal)
    (h : p.filter_state = FloatVal.nan) :
    (p.process data).1.filter_state = FloatVal.nan ∧
    ∀ y ∈ (p.process data).2, y = FloatVal.nan := by
  induction data generalizing p with
  | nil => exact ⟨h, by simp [TapeProcessorF.process]⟩
  | cons x xs ih =>
    obtain ⟨hst, hout⟩ := nan_step p x h
    obtain ⟨ih1, ih2⟩ := ih _ hst
    refine ⟨ih1, ?_⟩
    intro y hy
    simp only [TapeProcessorF.process, List.mem_cons] at hy
    rcases hy with hy | hy
    · rw [hy, hout]
    · exact ih2 y hy

/-- C6: over the IEEE extended domain, a NaN `filter_state` stays NaN
through every subsequent buffer and makes every subsequent output
sample NaN, and the special values propagate through `tanh` by the
standard rules `tanh(NaN) = NaN` and `tanh(±∞) = ±1`, with no special
handling anywhere in the chain. -/
theorem nan_poisons_forever (p : TapeProcessorF) (data : List FloatVal)
    (h : p.filter_state = FloatVal.nan) :
    (p.process data).1.filter_state = FloatVal.nan ∧
    (∀ y ∈ (p.process data).2, y = FloatVal.nan) ∧
    FloatVal.nan.tanh = FloatVal.nan ∧
    FloatVal.posInf.tanh = FloatVal.fin 1 ∧
    FloatVal.negInf.tanh = FloatVal.fin (-1) := by
  obtain ⟨h1, h2⟩ := nan_run p data h
  exact ⟨h1, h2, rfl, rfl, rfl⟩

/-- Closed instance of C6: a NaN state stays NaN across the finite
buffer `[0]` and the output sample is NaN. -/
theorem nan_poisons_forever_witness :
    ((TapeProcessorF.mk FloatVal.nan).process [FloatVal.fin 0]).1.filter_state
        = FloatVal.nan ∧
    (∀ y ∈ ((TapeProcessorF.mk FloatVal.nan).process [FloatVal.fin 0]).2,
        y = FloatVal.nan) ∧
    FloatVal.nan.tanh = FloatVal.nan ∧
    FloatVal.posInf.tanh = FloatVal.fin 1 ∧
    FloatVal.negInf.tanh = FloatVal.fin (-1) :=
  nan_poisons_forever (TapeProcessorF.mk FloatVal.nan) [FloatVal.fin 0] rfl

end WasmDsp
